import Mathlib

/-!
Shallow embedding of src/src/qt/peertablemodel.cpp: the Qt peer-table
snapshot cache (PeerTablePriv / PeerTableModel) of this repository.

Modelling choices, stated once:
* NodeId is modelled as Int (a machine integer node identifier).
* std::string fields are modelled as Lean String with the case-sensitive
  lexicographic order used by std::string::compare.
* dPingTime (a C++ double) is modelled as Rat; the claims under study only
  use its strict order.
* QList<CNodeStats> is modelled as List CNodeStats; std::map<NodeId, int>
  is modelled as an association list built in insertion order.  std::map's
  insert keeps the first value inserted for a key, and List.lookup returns
  the first matching entry, so lookups agree.
* Qt's qStableSort (library code, not part of this repository's sources) is
  a stable merge sort; it is modelled as List.mergeSort, keeping left before
  right exactly when the strict comparator does not order right before left.
* The external registry (cs_vNodes / vNodes, declared in net.h) is modelled
  by two inputs to refreshPeers: whether TRY_LOCK succeeds, and the list of
  per-peer stats that copyStats would produce for the nodes in vNodes.
-/

/-- One peer's statistics, as copied by CNode::copyStats (struct CNodeStats
from net.h; only the fields read by peertablemodel.cpp are modelled). -/
structure CNodeStats where
  nodeid : Int
  addrName : String
  cleanSubVer : String
  dPingTime : Rat
deriving DecidableEq, Repr

/-- Qt::SortOrder. -/
inductive SortOrder where
  | ascending
  | descending
deriving DecidableEq, Repr

/-- Modelled from the spec: the ColumnIndex enumeration declared in the class
header (peertablemodel.h, not among the sources); the spec lists the columns
Address, SubVersion, Ping in this order, matching the columns list and the
switch in PeerTableModel::data. -/
def PeerTableModel.Address : Int := 0

/-- Modelled from the spec: second column of the ColumnIndex enumeration. -/
def PeerTableModel.Subversion : Int := 1

/-- Modelled from the spec: third column of the ColumnIndex enumeration. -/
def PeerTableModel.Ping : Int := 2

/-- NodeLessThan::operator() (peertablemodel.cpp lines 16–35): the strict
comparator.  For Qt::DescendingOrder the two operands are swapped (std::swap
of pLeft/pRight) before the column switch; a column outside the switch falls
through to false. -/
def NodeLessThan (column : Int) (order : SortOrder) (left right : CNodeStats) : Bool :=
  let pLeft := if order = SortOrder.descending then right else left
  let pRight := if order = SortOrder.descending then left else right
  if column = PeerTableModel.Address then
    decide (pLeft.addrName < pRight.addrName)
  else if column = PeerTableModel.Subversion then
    decide (pLeft.cleanSubVer < pRight.cleanSubVer)
  else if column = PeerTableModel.Ping then
    decide (pLeft.dPingTime < pRight.dPingTime)
  else
    false

theorem NodeLessThan_ascending (column : Int) (a b : CNodeStats) :
    NodeLessThan column SortOrder.ascending a b =
      if column = PeerTableModel.Address then decide (a.addrName < b.addrName)
      else if column = PeerTableModel.Subversion then decide (a.cleanSubVer < b.cleanSubVer)
      else if column = PeerTableModel.Ping then decide (a.dPingTime < b.dPingTime)
      else false := by
  simp [NodeLessThan]

theorem NodeLessThan_descending_swap (column : Int) (a b : CNodeStats) :
    NodeLessThan column SortOrder.descending a b =
      NodeLessThan column SortOrder.ascending b a := by
  simp [NodeLessThan]

theorem NodeLessThan_Address_asc (a b : CNodeStats) :
    NodeLessThan PeerTableModel.Address SortOrder.ascending a b =
      decide (a.addrName < b.addrName) := by
  simp [NodeLessThan]

theorem NodeLessThan_Subversion_asc (a b : CNodeStats) :
    NodeLessThan PeerTableModel.Subversion SortOrder.ascending a b =
      decide (a.cleanSubVer < b.cleanSubVer) := by
  simp [NodeLessThan, PeerTableModel.Address, PeerTableModel.Subversion]

theorem NodeLessThan_Ping_asc (a b : CNodeStats) :
    NodeLessThan PeerTableModel.Ping SortOrder.ascending a b =
      decide (a.dPingTime < b.dPingTime) := by
  simp [NodeLessThan, PeerTableModel.Address, PeerTableModel.Subversion, PeerTableModel.Ping]

theorem NodeLessThan_none (column : Int) (order : SortOrder) (a b : CNodeStats)
    (h0 : column ≠ PeerTableModel.Address) (h1 : column ≠ PeerTableModel.Subversion)
    (h2 : column ≠ PeerTableModel.Ping) :
    NodeLessThan column order a b = false := by
  cases order <;> simp [NodeLessThan, h0, h1, h2]

theorem NodeLessThan_asc_asymm (column : Int) (a b : CNodeStats)
    (h : NodeLessThan column SortOrder.ascending a b = true) :
    NodeLessThan column SortOrder.ascending b a = false := by
  by_cases h0 : column = PeerTableModel.Address
  · subst h0
    rw [NodeLessThan_Address_asc] at h ⊢
    rw [decide_eq_true_eq] at h
    rw [decide_eq_false_iff_not]
    exact lt_asymm h
  · by_cases h1 : column = PeerTableModel.Subversion
    · subst h1
      rw [NodeLessThan_Subversion_asc] at h ⊢
      rw [decide_eq_true_eq] at h
      rw [decide_eq_false_iff_not]
      exact lt_asymm h
    · by_cases h2 : column = PeerTableModel.Ping
      · subst h2
        rw [NodeLessThan_Ping_asc] at h ⊢
        rw [decide_eq_true_eq] at h
        rw [decide_eq_false_iff_not]
        exact lt_asymm h
      · rw [NodeLessThan_none column SortOrder.ascending a b h0 h1 h2] at h
        exact absurd h (by simp)

theorem NodeLessThan_asymm (column : Int) (order : SortOrder) (a b : CNodeStats)
    (h : NodeLessThan column order a b = true) :
    NodeLessThan column order b a = false := by
  cases order
  · exact NodeLessThan_asc_asymm column a b h
  · rw [NodeLessThan_descending_swap] at h ⊢
    exact NodeLessThan_asc_asymm column b a h

theorem NodeLessThan_negtrans (column : Int) (x y z : CNodeStats)
    (h : NodeLessThan column SortOrder.ascending x z = true) :
    NodeLessThan column SortOrder.ascending x y = true ∨
      NodeLessThan column SortOrder.ascending y z = true := by
  by_cases h0 : column = PeerTableModel.Address
  · subst h0
    rw [NodeLessThan_Address_asc] at h
    rw [NodeLessThan_Address_asc, NodeLessThan_Address_asc]
    rw [decide_eq_true_eq] at h
    rcases lt_or_le x.addrName y.addrName with hxy | hyx
    · exact Or.inl (by rw [decide_eq_true_eq]; exact hxy)
    · exact Or.inr (by rw [decide_eq_true_eq]; exact lt_of_le_of_lt hyx h)
  · by_cases h1 : column = PeerTableModel.Subversion
    · subst h1
      rw [NodeLessThan_Subversion_asc] at h
      rw [NodeLessThan_Subversion_asc, NodeLessThan_Subversion_asc]
      rw [decide_eq_true_eq] at h
      rcases lt_or_le x.cleanSubVer y.cleanSubVer with hxy | hyx
      · exact Or.inl (by rw [decide_eq_true_eq]; exact hxy)
      · exact Or.inr (by rw [decide_eq_true_eq]; exact lt_of_le_of_lt hyx h)
    · by_cases h2 : column = PeerTableModel.Ping
      · subst h2
        rw [NodeLessThan_Ping_asc] at h
        rw [NodeLessThan_Ping_asc, NodeLessThan_Ping_asc]
        rw [decide_eq_true_eq] at h
        rcases lt_or_le x.dPingTime y.dPingTime with hxy | hyx
        · exact Or.inl (by rw [decide_eq_true_eq]; exact hxy)
        · exact Or.inr (by rw [decide_eq_true_eq]; exact lt_of_le_of_lt hyx h)
      · rw [NodeLessThan_none column SortOrder.ascending x z h0 h1 h2] at h
        exact absurd h (by simp)

/-- Qt's qStableSort over the cached list (library code; see the modelling
notes): a stable merge sort that keeps left before right exactly when the
strict comparator NodeLessThan does not order right before left. -/
def qStableSort (column : Int) (order : SortOrder) (l : List CNodeStats) : List CNodeStats :=
  l.mergeSort (fun a b => ! NodeLessThan column order b a)

/-- The private implementation state (class PeerTablePriv, lines 38–100):
the cached snapshot, the active sort column (an int, -1 meaning unsorted),
the sort order, and the nodeid-to-row index map. -/
structure PeerTablePriv where
  cachedNodeStats : List CNodeStats
  sortColumn : Int
  sortOrder : SortOrder
  mapNodeRows : List (Int × Int)
deriving DecidableEq, Repr

/-- The index-building loop of refreshPeers (lines 75–81): iterate over the
cached stats with a row counter and insert (nodeid, row) pairs.  std::map's
insert keeps the first value for a duplicate key, matched here by List.lookup
returning the first entry with the key. -/
def buildNodeRows : List CNodeStats → Int → List (Int × Int)
  | [], _ => []
  | stats :: rest, row => (stats.nodeid, row) :: buildNodeRows rest (row + 1)

/-- PeerTablePriv::refreshPeers (lines 51–82).  Inputs model the external
registry: lockNodes is the outcome of TRY_LOCK(cs_vNodes, lockNodes), and
vNodes the stats that copyStats yields for the registry's nodes.  If the
try-lock fails the function returns at once, leaving the state untouched;
the Bool result reifies which return path was taken (false = the early
"skip the refresh" return at line 57, true = a full refresh).  On success
the cache is replaced by the copied list, stable-sorted by the active
column when sortColumn >= 0, and the row index is rebuilt from it. -/
def PeerTablePriv.refreshPeers (s : PeerTablePriv) (lockNodes : Bool)
    (vNodes : List CNodeStats) : PeerTablePriv × Bool :=
  if lockNodes = false then
    (s, false)
  else
    let copied := vNodes
    let sorted := if s.sortColumn ≥ 0 then qStableSort s.sortColumn s.sortOrder copied
      else copied
    ({ cachedNodeStats := sorted, sortColumn := s.sortColumn, sortOrder := s.sortOrder,
       mapNodeRows := buildNodeRows sorted 0 }, true)

/-- PeerTablePriv::size (lines 84–87): QList::size as a C++ int. -/
def PeerTablePriv.size (s : PeerTablePriv) : Int :=
  s.cachedNodeStats.length

/-- PeerTablePriv::index (lines 89–98): bounds-checked element access.  The
returned pointer is modelled as an Option: the null pointer (returned when
idx is out of range) is none. -/
def PeerTablePriv.index (s : PeerTablePriv) (idx : Int) : Option CNodeStats :=
  if h : 0 ≤ idx ∧ idx < s.cachedNodeStats.length then
    some (s.cachedNodeStats.get ⟨idx.toNat, by omega⟩)
  else
    none

/-- The PeerTablePriv freshly built by the PeerTableModel constructor (lines
102–116) before the initial refresh: empty cache and index, sortColumn set
to -1 ("default to unsorted").  The C++ sortOrder member is left
uninitialized by the constructor, so it is a parameter here. -/
def initialPriv (order : SortOrder) : PeerTablePriv :=
  { cachedNodeStats := [], sortColumn := -1, sortOrder := order, mapNodeRows := [] }

/-- The Qt layout signals emitted by PeerTableModel::refresh. -/
inductive PeerSignal where
  | layoutAboutToBeChanged
  | layoutChanged
deriving DecidableEq, Repr

/-- PeerTableModel::refresh (lines 203–208): emit layoutAboutToBeChanged,
run the private refreshPeers, emit layoutChanged.  The second component
lists the emitted signals in order; the first signal precedes the call to
refreshPeers and the second follows it. -/
def PeerTableModel.refresh (s : PeerTablePriv) (lockNodes : Bool)
    (vNodes : List CNodeStats) : (PeerTablePriv × Bool) × List PeerSignal :=
  (s.refreshPeers lockNodes vNodes,
    [PeerSignal.layoutAboutToBeChanged, PeerSignal.layoutChanged])

/-- PeerTableModel::getRowByNodeId (lines 210–217): look the node id up in
mapNodeRows; -1 when the map has no such key (map.end()). -/
def PeerTableModel.getRowByNodeId (s : PeerTablePriv) (nodeid : Int) : Int :=
  match s.mapNodeRows.lookup nodeid with
  | none => -1
  | some row => row

/-- PeerTableModel::sort (lines 219–224): store the new column and order in
the private state, then refresh. -/
def PeerTableModel.sortModel (s : PeerTablePriv) (column : Int) (order : SortOrder)
    (lockNodes : Bool) (vNodes : List CNodeStats) : (PeerTablePriv × Bool) × List PeerSignal :=
  PeerTableModel.refresh { s with sortColumn := column, sortOrder := order } lockNodes vNodes

/-- States of the private cache reachable through the public mutators: the
freshly constructed state, any number of refresh() calls (each with an
arbitrary try-lock outcome and arbitrary registry contents), and the
column/order update performed by sort() before its embedded refresh. -/
inductive Reachable : PeerTablePriv → Prop
  | init (order : SortOrder) : Reachable (initialPriv order)
  | refresh (lockNodes : Bool) (vNodes : List CNodeStats) {s : PeerTablePriv} :
      Reachable s → Reachable (s.refreshPeers lockNodes vNodes).1
  | setSort (column : Int) (order : SortOrder) {s : PeerTablePriv} :
      Reachable s →
      Reachable { s with sortColumn := column, sortOrder := order }

/-- The events of one refreshPeers call, in execution order.  The release
event is the destruction of the TRY_LOCK guard. -/
inductive RefreshStep where
  | tryLockVNodes (acquired : Bool)
  | copyStats
  | sortCachedNodeStats
  | buildIndexMap
  | releaseLockVNodes
deriving DecidableEq, Repr

/-- Event trace of PeerTablePriv::refreshPeers (lines 51–82).  The macro
statement TRY_LOCK(cs_vNodes, lockNodes) at line 52 declares the RAII guard
lockNodes as a local of the function body; the compound block at lines 53–69
follows that declaration and does not contain it (the block reads lockNodes,
which is in scope around it).  Hence on a successful try-lock the guard is
destroyed — releasing cs_vNodes — only when refreshPeers returns, after the
qStableSort call (taken when sortColumn >= 0) and after the index-map
rebuild.  On a failed try-lock the function returns at once holding
nothing. -/
def refreshPeersTrace (lockNodes : Bool) (sortColumn : Int) : List RefreshStep :=
  if lockNodes = false then
    [RefreshStep.tryLockVNodes false]
  else
    [RefreshStep.tryLockVNodes true, RefreshStep.copyStats] ++
      (if sortColumn ≥ 0 then [RefreshStep.sortCachedNodeStats] else []) ++
      [RefreshStep.buildIndexMap, RefreshStep.releaseLockVNodes]

theorem lookup_buildNodeRows_some (l : List CNodeStats) :
    ∀ (base x : Int), (∃ rec ∈ l, rec.nodeid = x) →
      ∃ (k : Nat) (hk : k < l.length),
        (buildNodeRows l base).lookup x = some (base + k) ∧
          (l.get ⟨k, hk⟩).nodeid = x := by
  induction l with
  | nil =>
      intro base x h
      simp at h
  | cons s rest ih =>
      intro base x h
      by_cases hsx : s.nodeid = x
      · subst hsx
        refine ⟨0, by simp, ?_, rfl⟩
        simp [buildNodeRows, List.lookup]
      · obtain ⟨rec, hrec, hid⟩ := h
        rcases List.mem_cons.mp hrec with rfl | hrest
        · exact absurd hid hsx
        · obtain ⟨k, hk, hlk, hget⟩ := ih (base + 1) x ⟨rec, hrest, hid⟩
          have hbeq : (x == s.nodeid) = false :=
            beq_eq_false_iff_ne.mpr (Ne.symm hsx)
          refine ⟨k + 1, by simpa using Nat.succ_lt_succ hk, ?_, hget⟩
          simp only [buildNodeRows, List.lookup, hbeq]
          rw [hlk]
          congr 1
          push_cast
          ring

theorem lookup_buildNodeRows_none (l : List CNodeStats) :
    ∀ (base x : Int), (∀ rec ∈ l, rec.nodeid ≠ x) →
      (buildNodeRows l base).lookup x = none := by
  induction l with
  | nil => intro base x _; rfl
  | cons s rest ih =>
      intro base x h
      have hs : s.nodeid ≠ x := h s (by simp)
      have hbeq : (x == s.nodeid) = false := beq_eq_false_iff_ne.mpr (Ne.symm hs)
      simp only [buildNodeRows, List.lookup, hbeq]
      exact ih (base + 1) x fun rec hr => h rec (List.mem_cons_of_mem s hr)

theorem reachable_mapNodeRows {s : PeerTablePriv} (hs : Reachable s) :
    s.mapNodeRows = buildNodeRows s.cachedNodeStats 0 := by
  induction hs with
  | init order => rfl
  | refresh lockNodes vNodes hs ih =>
      cases lockNodes with
      | false => simpa [PeerTablePriv.refreshPeers] using ih
      | true => simp [PeerTablePriv.refreshPeers]
  | setSort column order hs ih => simpa using ih

theorem index_natCast_eq_get (s : PeerTablePriv) (k : Nat)
    (hk : k < s.cachedNodeStats.length) :
    s.index (k : Int) = some (s.cachedNodeStats.get ⟨k, hk⟩) := by
  unfold PeerTablePriv.index
  rw [dif_pos ⟨Int.natCast_nonneg k, by exact_mod_cast hk⟩]
  simp only [Int.toNat_natCast]

theorem nodeLe_trans (column : Int) (order : SortOrder) :
    ∀ x y z : CNodeStats,
      (!NodeLessThan column order y x) = true →
      (!NodeLessThan column order z y) = true →
      (!NodeLessThan column order z x) = true := by
  intro x y z hxy hyz
  rw [Bool.not_eq_true'] at hxy hyz ⊢
  cases hzx : NodeLessThan column order z x with
  | false => rfl
  | true =>
      exfalso
      cases order with
      | ascending =>
          rcases NodeLessThan_negtrans column z y x hzx with h1 | h1
          · rw [hyz] at h1; exact Bool.false_ne_true h1
          · rw [hxy] at h1; exact Bool.false_ne_true h1
      | descending =>
          rw [NodeLessThan_descending_swap] at hzx
          rcases NodeLessThan_negtrans column x y z hzx with h1 | h1
          · rw [← NodeLessThan_descending_swap, hxy] at h1
            exact Bool.false_ne_true h1
          · rw [← NodeLessThan_descending_swap, hyz] at h1
            exact Bool.false_ne_true h1

theorem nodeLe_total (column : Int) (order : SortOrder) :
    ∀ a b : CNodeStats,
      ((!NodeLessThan column order b a) || (!NodeLessThan column order a b)) = true := by
  intro a b
  cases hab : NodeLessThan column order b a with
  | false => simp
  | true =>
      have hfalse := NodeLessThan_asymm column order b a hab
      simp [hfalse]

/-- A connected peer used by the concrete witnesses. -/
def peerOne : CNodeStats :=
  { nodeid := 1, addrName := "b", cleanSubVer := "v1", dPingTime := 1 }

/-- A second peer; its address sorts before peerOne's. -/
def peerTwo : CNodeStats :=
  { nodeid := 2, addrName := "a", cleanSubVer := "v2", dPingTime := 2 }

/-- A third peer, used for the disconnect scenario. -/
def peerThree : CNodeStats :=
  { nodeid := 3, addrName := "c", cleanSubVer := "v3", dPingTime := 3 }

/-- First of two peers with identical ping times. -/
def peerTieOne : CNodeStats :=
  { nodeid := 1, addrName := "p", cleanSubVer := "u1", dPingTime := 7 }

/-- Second of two peers with identical ping times. -/
def peerTieTwo : CNodeStats :=
  { nodeid := 2, addrName := "q", cleanSubVer := "u2", dPingTime := 7 }

/-- A one-record cache state used by the bounds witness. -/
def smallState : PeerTablePriv :=
  { cachedNodeStats := [peerOne], sortColumn := -1, sortOrder := SortOrder.ascending,
    mapNodeRows := [(1, 0)] }

/-- C1: a refresh() made while the registry's lock is unavailable takes the
early skip return — reified as the false result — executes no further step,
and leaves cachedNodeStats and mapNodeRows (indeed the whole private state)
exactly as they were before the call. -/
theorem refresh_skipped_preserves_state (s : PeerTablePriv) (vNodes : List CNodeStats)
    (sortColumn : Int) :
    (s.refreshPeers false vNodes).1.cachedNodeStats = s.cachedNodeStats ∧
    (s.refreshPeers false vNodes).1.mapNodeRows = s.mapNodeRows ∧
    s.refreshPeers false vNodes = (s, false) ∧
    refreshPeersTrace false sortColumn = [RefreshStep.tryLockVNodes false] :=
  ⟨rfl, rfl, rfl, rfl⟩

/-- C2: actual event order of a successful refresh with an active sort
column (Ping): the cs_vNodes release — the destruction of the TRY_LOCK guard
at function exit — comes after the stable sort and the index rebuild, not
immediately after the stats copy: filtering the trace down to the sort and
release events puts the sort first. -/
theorem lock_released_only_after_sort :
    refreshPeersTrace true PeerTableModel.Ping =
      [RefreshStep.tryLockVNodes true, RefreshStep.copyStats,
        RefreshStep.sortCachedNodeStats, RefreshStep.buildIndexMap,
        RefreshStep.releaseLockVNodes] ∧
    (refreshPeersTrace true PeerTableModel.Ping).filter
        (fun e => e == RefreshStep.sortCachedNodeStats ||
          e == RefreshStep.releaseLockVNodes) =
      [RefreshStep.sortCachedNodeStats, RefreshStep.releaseLockVNodes] := by
  constructor <;> rfl

/-- C3: in every cache state reachable by any sequence of refresh()/sort()
calls (successful or skipped), every nodeId x present in the current
snapshot resolves through getRowByNodeId to a row whose cached record has
nodeid x: records and index always form a matched pair. -/
theorem rowOf_recordAt_consistent (s : PeerTablePriv) (hs : Reachable s) (x : Int)
    (hmem : ∃ rec ∈ s.cachedNodeStats, rec.nodeid = x) :
    ∃ rec, s.index (PeerTableModel.getRowByNodeId s x) = some rec ∧ rec.nodeid = x := by
  have hinv := reachable_mapNodeRows hs
  obtain ⟨k, hk, hlk, hget⟩ := lookup_buildNodeRows_some s.cachedNodeStats 0 x hmem
  have hrow : PeerTableModel.getRowByNodeId s x = (k : Int) := by
    unfold PeerTableModel.getRowByNodeId
    rw [hinv, hlk]
    simp
  rw [hrow, index_natCast_eq_get s k hk]
  exact ⟨_, rfl, hget⟩

/-- C3 witness: after one successful refresh that snapshots a single peer,
that peer's nodeId resolves to its own record. -/
theorem rowOf_recordAt_consistent_witness :
    ∃ rec,
      PeerTablePriv.index ((initialPriv SortOrder.ascending).refreshPeers true [peerOne]).1
          (PeerTableModel.getRowByNodeId
            ((initialPriv SortOrder.ascending).refreshPeers true [peerOne]).1 1) =
        some rec ∧ rec.nodeid = 1 :=
  rowOf_recordAt_consistent _
    (Reachable.refresh true [peerOne] (Reachable.init SortOrder.ascending)) 1 (by decide)

/-- C4: the sort applied by a successful refresh is stable: two records tied
under the active column and order (the strict comparator rejects them both
ways) keep, in the refreshed cache, the relative order they had in the
registry-reported sequence. -/
theorem refresh_sort_stable (s : PeerTablePriv) (vNodes : List CNodeStats)
    (a b : CNodeStats) (hsub : List.Sublist [a, b] vNodes)
    (_hab : NodeLessThan s.sortColumn s.sortOrder a b = false)
    (hba : NodeLessThan s.sortColumn s.sortOrder b a = false) :
    List.Sublist [a, b] (s.refreshPeers true vNodes).1.cachedNodeStats := by
  have hrec : (s.refreshPeers true vNodes).1.cachedNodeStats =
      if s.sortColumn ≥ 0 then qStableSort s.sortColumn s.sortOrder vNodes
      else vNodes := by
    simp [PeerTablePriv.refreshPeers]
  rw [hrec]
  split
  · unfold qStableSort
    exact List.pair_sublist_mergeSort (nodeLe_trans s.sortColumn s.sortOrder)
      (nodeLe_total s.sortColumn s.sortOrder) (by simp [hba]) hsub
  · exact hsub

/-- C4 witness: scenario C — two peers with identical pingTime in registry
order [1, 2] are still in that order after a refresh sorting by Ping
ascending. -/
theorem refresh_sort_stable_witness :
    List.Sublist [peerTieOne, peerTieTwo]
      (({ cachedNodeStats := [], sortColumn := 2, sortOrder := SortOrder.ascending,
          mapNodeRows := [] } : PeerTablePriv).refreshPeers true
        [peerTieOne, peerTieTwo]).1.cachedNodeStats :=
  refresh_sort_stable _ _ peerTieOne peerTieTwo (List.Sublist.refl _)
    (by decide) (by decide)

/-- C5: the Descending comparator equals the Ascending comparator with its
operands swapped, and records the ascending comparator rejects both ways
compare equal — comparator false both ways — under either direction. -/
theorem descending_swaps_operands (column : Int) (a b : CNodeStats) :
    NodeLessThan column SortOrder.descending a b =
      NodeLessThan column SortOrder.ascending b a ∧
    (NodeLessThan column SortOrder.ascending a b = false →
      NodeLessThan column SortOrder.ascending b a = false →
      ∀ order : SortOrder,
        NodeLessThan column order a b = false ∧
          NodeLessThan column order b a = false) := by
  refine ⟨NodeLessThan_descending_swap column a b, fun hab hba order => ?_⟩
  cases order with
  | ascending => exact ⟨hab, hba⟩
  | descending =>
      rw [NodeLessThan_descending_swap, NodeLessThan_descending_swap]
      exact ⟨hba, hab⟩

/-- C5 witness: two ping-tied peers at column Ping compare equal both ways
in descending direction as well, and the operand-swap identity holds at
them. -/
theorem descending_swaps_operands_witness :
    (NodeLessThan 2 SortOrder.descending peerTieOne peerTieTwo =
      NodeLessThan 2 SortOrder.ascending peerTieTwo peerTieOne) ∧
    (NodeLessThan 2 SortOrder.descending peerTieOne peerTieTwo = false ∧
      NodeLessThan 2 SortOrder.descending peerTieTwo peerTieOne = false) :=
  ⟨(descending_swaps_operands 2 peerTieOne peerTieTwo).1,
    (descending_swaps_operands 2 peerTieOne peerTieTwo).2 (by decide) (by decide)
      SortOrder.descending⟩

/-- C6: the ascending comparator orders by the case-sensitive lexicographic
String order of addrName for column Address, of cleanSubVer for column
SubVersion, and by the numeric order of dPingTime for column Ping. -/
theorem ascending_comparator_columns (a b : CNodeStats) :
    NodeLessThan PeerTableModel.Address SortOrder.ascending a b =
      decide (a.addrName < b.addrName) ∧
    NodeLessThan PeerTableModel.Subversion SortOrder.ascending a b =
      decide (a.cleanSubVer < b.cleanSubVer) ∧
    NodeLessThan PeerTableModel.Ping SortOrder.ascending a b =
      decide (a.dPingTime < b.dPingTime) :=
  ⟨NodeLessThan_Address_asc a b, NodeLessThan_Subversion_asc a b,
    NodeLessThan_Ping_asc a b⟩

/-- C7: PeerTablePriv::index is bounds-checked for every state and every
int row: rows below 0 or at/after size() yield the null result none without
any list access, and in-range rows yield the record at that position. -/
theorem recordAt_bounds_checked (s : PeerTablePriv) (idx : Int) :
    (idx < 0 ∨ s.size ≤ idx → s.index idx = none) ∧
    (0 ≤ idx → idx < s.size →
      ∃ hk : idx.toNat < s.cachedNodeStats.length,
        s.index idx = some (s.cachedNodeStats.get ⟨idx.toNat, hk⟩)) := by
  constructor
  · intro h
    have hneg : ¬ (0 ≤ idx ∧ idx < (s.cachedNodeStats.length : Int)) := by
      unfold PeerTablePriv.size at h
      omega
    unfold PeerTablePriv.index
    rw [dif_neg hneg]
  · intro h1 h2
    unfold PeerTablePriv.size at h2
    have hk : idx.toNat < s.cachedNodeStats.length := by omega
    refine ⟨hk, ?_⟩
    unfold PeerTablePriv.index
    rw [dif_pos ⟨h1, h2⟩]

/-- C7 witness: on a one-record cache, rows -1 and 7 yield none and row 0
yields the record. -/
theorem recordAt_bounds_checked_witness :
    smallState.index (-1) = none ∧ smallState.index 7 = none ∧
      smallState.index 0 = some peerOne := by
  refine ⟨(recordAt_bounds_checked smallState (-1)).1 (by decide),
    (recordAt_bounds_checked smallState 7).1 (by decide), ?_⟩
  obtain ⟨hk, h⟩ := (recordAt_bounds_checked smallState 0).2 (by decide) (by decide)
  rw [h]
  rfl

/-- C8: in every reachable cache state, a nodeId with no record in the
current snapshot — never connected, or dropped by a later refresh —
resolves to -1 (not found). -/
theorem rowOf_missing_not_found (s : PeerTablePriv) (hs : Reachable s) (x : Int)
    (habs : ∀ rec ∈ s.cachedNodeStats, rec.nodeid ≠ x) :
    PeerTableModel.getRowByNodeId s x = -1 := by
  have hinv := reachable_mapNodeRows hs
  unfold PeerTableModel.getRowByNodeId
  rw [hinv, lookup_buildNodeRows_none s.cachedNodeStats 0 x habs]

/-- C8 witness: scenario E — peer 3 is in snapshot N but absent from
snapshot N+1; after the second refresh its nodeId resolves to -1. -/
theorem rowOf_missing_not_found_witness :
    PeerTableModel.getRowByNodeId
      ((((initialPriv SortOrder.ascending).refreshPeers true
        [peerThree]).1).refreshPeers true []).1 3 = -1 :=
  rowOf_missing_not_found _
    (Reachable.refresh true []
      (Reachable.refresh true [peerThree] (Reachable.init SortOrder.ascending)))
    3 (by decide)

/-- C9: the cache is created with sortColumn = -1 (unsorted / None), and a
successful refresh in any state with a negative sort column applies no
comparison: the cached records are exactly the registry-reported
sequence. -/
theorem unsorted_refresh_keeps_registry_order (order : SortOrder) (s : PeerTablePriv)
    (vNodes : List CNodeStats) :
    (initialPriv order).sortColumn = -1 ∧
    (s.sortColumn < 0 → (s.refreshPeers true vNodes).1.cachedNodeStats = vNodes) := by
  refine ⟨rfl, fun h => ?_⟩
  have h' : ¬ s.sortColumn ≥ 0 := by omega
  simp [PeerTablePriv.refreshPeers, h']

/-- C9 witness: a successful refresh of the freshly constructed cache keeps
the registry order [peerOne, peerTwo] although peerTwo's address sorts
first. -/
theorem unsorted_refresh_keeps_registry_order_witness :
    (initialPriv SortOrder.ascending).sortColumn = -1 ∧
    ((initialPriv SortOrder.ascending).refreshPeers true
        [peerOne, peerTwo]).1.cachedNodeStats = [peerOne, peerTwo] :=
  ⟨(unsorted_refresh_keeps_registry_order SortOrder.ascending
      (initialPriv SortOrder.ascending) [peerOne, peerTwo]).1,
    (unsorted_refresh_keeps_registry_order SortOrder.ascending
      (initialPriv SortOrder.ascending) [peerOne, peerTwo]).2 (by decide)⟩

/-- C10: PeerTableModel::refresh emits layoutAboutToBeChanged and
layoutChanged, in that order, on every call — also when the private refresh
is skipped by lock contention and the snapshot pair stays unchanged. -/
theorem refresh_always_emits_layout_signals (s : PeerTablePriv) (lockNodes : Bool)
    (vNodes : List CNodeStats) :
    (PeerTableModel.refresh s lockNodes vNodes).2 =
      [PeerSignal.layoutAboutToBeChanged, PeerSignal.layoutChanged] ∧
    (PeerTableModel.refresh s false vNodes).1 = (s, false) :=
  ⟨rfl, rfl⟩
